import Mathlib

/-!
Verification of the ProteinLab Sequence Repository and Mutation Engine.

The repository ships the React presentation layer (src/frontend/src/App.js
and two earlier revisions of the same component); the FastAPI backend that
implements the core (Amino Acid Catalog, Sequence Validator, Protein Record
Store, Composition Analyzer, Mutation Engine) is not part of the sources.
Definitions for the missing backend are modelled from the specification and
are marked as such in their doc comments; definitions for the presentation
layer are translated from src/frontend/src/App.js.
-/

namespace ProteinLab

/-- Chemical class of an amino acid, as in the catalog and the frontend
color legend. -/
inductive AAClass where
  | hydrophobic : AAClass
  | polarUncharged : AAClass
  | positiveCharged : AAClass
  | negativeCharged : AAClass
  | special : AAClass
deriving DecidableEq, Repr

/-- Catalog entry: single-letter code, full chemical name, chemical class.
The field named class in the spec is called cls here because class is a
Lean keyword. -/
structure AminoAcid where
  code : Char
  fullName : String
  cls : AAClass
deriving DecidableEq, Repr

/-- Modelled from the spec: the backend Amino Acid Catalog is not in the
repository sources. Entries and their classes follow the grouping of
AA_COLORS in src/frontend/src/App.js lines 11-28 and the color legend in
lines 399-408 (hydrophobic A,V,I,L,M,F,W,P; polar S,T,C,Y,N,Q; positive
K,R,H; negative D,E; special G); full names are the standard biochemical
names. -/
def catalog : List AminoAcid :=
  [ ⟨'A', "Alanine", AAClass.hydrophobic⟩,
    ⟨'V', "Valine", AAClass.hydrophobic⟩,
    ⟨'I', "Isoleucine", AAClass.hydrophobic⟩,
    ⟨'L', "Leucine", AAClass.hydrophobic⟩,
    ⟨'M', "Methionine", AAClass.hydrophobic⟩,
    ⟨'F', "Phenylalanine", AAClass.hydrophobic⟩,
    ⟨'W', "Tryptophan", AAClass.hydrophobic⟩,
    ⟨'P', "Proline", AAClass.hydrophobic⟩,
    ⟨'S', "Serine", AAClass.polarUncharged⟩,
    ⟨'T', "Threonine", AAClass.polarUncharged⟩,
    ⟨'C', "Cysteine", AAClass.polarUncharged⟩,
    ⟨'Y', "Tyrosine", AAClass.polarUncharged⟩,
    ⟨'N', "Asparagine", AAClass.polarUncharged⟩,
    ⟨'Q', "Glutamine", AAClass.polarUncharged⟩,
    ⟨'K', "Lysine", AAClass.positiveCharged⟩,
    ⟨'R', "Arginine", AAClass.positiveCharged⟩,
    ⟨'H', "Histidine", AAClass.positiveCharged⟩,
    ⟨'D', "Aspartate", AAClass.negativeCharged⟩,
    ⟨'E', "Glutamate", AAClass.negativeCharged⟩,
    ⟨'G', "Glycine", AAClass.special⟩ ]

/-- The codes of the catalog, in catalog order. -/
def catalogCodes : List Char := catalog.map AminoAcid.code

/-- Modelled from the spec: the 20 standard amino-acid single-letter codes
(spec section 3, AminoAcid invariant), listed in the conventional
alphabetical-by-three-letter-code order. -/
def standardCodes : List Char :=
  ['A', 'R', 'N', 'D', 'C', 'E', 'Q', 'G', 'H', 'I',
   'L', 'K', 'M', 'F', 'P', 'S', 'T', 'W', 'Y', 'V']

/-- Membership test against the catalog codes. -/
def isCatalogCode (c : Char) : Bool := decide (c ∈ catalogCodes)

/-- The AA_COLORS table of src/frontend/src/App.js lines 11-28: amino acid
color mapping based on chemical properties, in source order. -/
def AA_COLORS : List (Char × String) :=
  [ ('A', "#2ECC71"), ('V', "#27AE60"), ('I', "#16A085"), ('L', "#1ABC9C"),
    ('M', "#45B39D"), ('F', "#138D75"), ('W', "#117A65"), ('P', "#0E6655"),
    ('S', "#9B59B6"), ('T', "#8E44AD"), ('C', "#E91E63"), ('Y', "#C2185B"),
    ('N', "#AD1457"), ('Q', "#880E4F"),
    ('K', "#3498DB"), ('R', "#2980B9"), ('H', "#5DADE2"),
    ('D', "#E74C3C"), ('E', "#C0392B"),
    ('G', "#95A5A6") ]

/-- Association-list lookup, first matching key wins; models both the
Python dict read in the backend and the JS object indexing in App.js. -/
def assocLookup {α β : Type} [DecidableEq α] : List (α × β) → α → Option β
  | [], _ => none
  | (k, v) :: rest, a => if k = a then some v else assocLookup rest a

/-- The 2D residue grid color, App.js line 390: backgroundColor is the
JS expression AA_COLORS[aa] OR-ELSE the fallback; a falsy entry (the empty
string) also falls back, as with the JS or-operator. -/
def sequenceViewerColor (aa : Char) : String :=
  match assocLookup AA_COLORS aa with
  | some col => if col = "" then "#ccc" else col
  | none => "#ccc"

/-- The 3D helix point color, App.js line 81 (and line 56 of the older
canvas-based component): the same JS expression AA_COLORS[aa] OR-ELSE the
fallback. -/
def proteinModelColor (aa : Char) : String :=
  match assocLookup AA_COLORS aa with
  | some col => if col = "" then "#ccc" else col
  | none => "#ccc"

/-- Modelled from the spec: the backend Sequence Validator is not in the
repository sources. Error taxonomy of spec section 7: InvalidSequence is
raised when the normalized string is empty or contains a character outside
the catalog; the bad-character case carries the offending character and
its 0-based position. -/
inductive InvalidSequence where
  | emptySeq : InvalidSequence
  | badChar (c : Char) (pos : Nat) : InvalidSequence
deriving DecidableEq, Repr

/-- Modelled from the spec: strip a leading FASTA header line (a line
beginning with the greater-than sign) if present; the header is discarded,
not stored (spec section 4.2). -/
def stripHeader : List Char → List Char
  | [] => []
  | c :: rest =>
      if c = '>' then (List.dropWhile (fun x => x != '\n') rest).drop 1
      else c :: rest

/-- Modelled from the spec: Validator normalization (spec section 4.2):
strip a header line if present, remove all whitespace, uppercase the
remaining characters. -/
def normalize (raw : List Char) : List Char :=
  ((stripHeader raw).filter (fun c => !c.isWhitespace)).map Char.toUpper

/-- Modelled from the spec: first character of a normalized string that is
not a catalog code, together with its 0-based position. -/
def findInvalid : List Char → Option (Char × Nat)
  | [] => none
  | c :: rest =>
      if isCatalogCode c then (findInvalid rest).map (fun p => (p.1, p.2 + 1))
      else some (c, 0)

/-- Modelled from the spec: the Validator (spec section 4.2): normalize,
then reject with InvalidSequence if the result is empty or contains a
character outside the catalog, reporting the offending character and its
position; otherwise return the ProteinSequence. -/
def validate (raw : List Char) : Except InvalidSequence (List Char) :=
  let n := normalize raw
  match n with
  | [] => Except.error InvalidSequence.emptySeq
  | _ :: _ =>
      match findInvalid n with
      | some (c, p) => Except.error (InvalidSequence.badChar c p)
      | none => Except.ok n

/-- Modelled from the spec: one step of the Composition Analyzer (spec
section 4.4), incrementing the count of one residue in the mapping, with
dict semantics: an existing key is incremented in place, a new key is
appended with count 1. -/
def insertCount : List (Char × Nat) → Char → List (Char × Nat)
  | [], c => [(c, 1)]
  | (k, n) :: rest, c =>
      if k = c then (k, n + 1) :: rest else (k, n) :: insertCount rest c

/-- Modelled from the spec: the Composition Analyzer iteration over the
residues of a sequence, threading the count mapping. -/
def analyzeFrom : List (Char × Nat) → List Char → List (Char × Nat)
  | m, [] => m
  | m, c :: rest => analyzeFrom (insertCount m c) rest

/-- Modelled from the spec: analyze(sequence), mapping each occurring code
to its occurrence count (spec section 4.4): iterate every residue,
increment its count. -/
def analyze (s : List Char) : List (Char × Nat) := analyzeFrom [] s

/-- Modelled from the spec: ProteinRecord (spec section 3): identity, name,
sequence, derived length and composition, optional lineage (parent id and
nomenclature string). -/
structure ProteinRecord where
  id : Nat
  name : String
  sequence : List Char
  length : Nat
  composition : List (Char × Nat)
  lineage : Option (Nat × String)
deriving DecidableEq, Repr

/-- Modelled from the spec: the Protein Record Store (spec section 4.3):
a monotonic identity counter and the record collection in insertion
order. -/
structure Store where
  nextId : Nat
  records : List ProteinRecord
deriving DecidableEq, Repr

/-- Modelled from the spec: Store.insert assigns the fresh id, computes
length and composition at insertion time, appends the record and returns
it together with the updated store. -/
def Store.insert (st : Store) (nm : String) (seq : List Char)
    (lin : Option (Nat × String)) : ProteinRecord × Store :=
  let r : ProteinRecord :=
    { id := st.nextId, name := nm, sequence := seq, length := seq.length,
      composition := analyze seq, lineage := lin }
  (r, { nextId := st.nextId + 1, records := st.records ++ [r] })

/-- Modelled from the spec: Store.get, lookup by id. -/
def Store.get (st : Store) (i : Nat) : Option ProteinRecord :=
  st.records.find? (fun r => r.id == i)

/-- Modelled from the spec: Store.list, the records in insertion order. -/
def Store.list (st : Store) : List ProteinRecord := st.records

/-- Well-formedness of a store: every stored id is below the identity
counter, so the counter always yields a fresh id. -/
def Store.WF (st : Store) : Prop := ∀ r ∈ st.records, r.id < st.nextId

/-- Modelled from the spec: the Mutation Engine failure taxonomy (spec
sections 4.5 and 7). -/
inductive MutError where
  | NotFound : MutError
  | InvalidPosition : MutError
  | InvalidResidue : MutError
  | NoOpMutation : MutError
deriving DecidableEq, Repr

/-- Success payload of the external Mutate interface. The field names are
taken from the frontend consumer (src/frontend/src/App.js handleMutate,
lines 286-295), which reads res.data.mutation and
res.data.mutated_protein. -/
structure MutateResponse where
  mutation : String
  mutated_protein : ProteinRecord
deriving DecidableEq, Repr

/-- A serialized field value of the mutate success payload. -/
inductive FieldValue where
  | str (s : String) : FieldValue
  | record (r : ProteinRecord) : FieldValue
deriving DecidableEq, Repr

def mutationKey : String := "mutation"

def mutatedProteinKey : String := "mutated_protein"

def nomenclatureKey : String := "nomenclature"

def mutatedRecordKey : String := "mutatedRecord"

/-- The serialized success payload of the external Mutate interface, with
the field names observed by the frontend consumer in
src/frontend/src/App.js handleMutate. -/
def MutateResponse.fields (resp : MutateResponse) : List (String × FieldValue) :=
  [(mutationKey, FieldValue.str resp.mutation),
   (mutatedProteinKey, FieldValue.record resp.mutated_protein)]

/-- Modelled from the spec: the nomenclature string (spec section 4.5 step
6): old residue code, then the decimal rendering of the 1-based position,
then the new residue code. -/
def nomenclature (oldCode : Char) (position : Nat) (newCode : Char) : String :=
  String.mk [oldCode] ++ Nat.repr (position + 1) ++ String.mk [newCode]

/-- Modelled from the spec: the success path of the Mutation Engine (spec
section 4.5 steps 5-8): build the substituted sequence, derive the
nomenclature, insert the derived record with the derived name and lineage,
and return it with the nomenclature. -/
def mutateOk (st : Store) (r : ProteinRecord) (position : Nat)
    (newResidueCode : Char) (hpos : position < r.sequence.length) :
    MutateResponse × Store :=
  let oldC := r.sequence.get ⟨position, hpos⟩
  let nom := nomenclature oldC position newResidueCode
  let ins := st.insert (r.name ++ " (" ++ nom ++ ")")
    (r.sequence.set position newResidueCode) (some (r.id, nom))
  ({ mutation := nom, mutated_protein := ins.1 }, ins.2)

/-- Modelled from the spec: the Mutation Engine checks of spec section 4.5
applied to the result of the record lookup, in the specified order:
NotFound, InvalidPosition, InvalidResidue, NoOpMutation, then the success
path. The store is threaded explicitly; every failure leaves it
unchanged. -/
def mutateWith (st : Store) (source : Option ProteinRecord)
    (position : Nat) (newResidueCode : Char) :
    Except MutError MutateResponse × Store :=
  match source with
  | none => (Except.error MutError.NotFound, st)
  | some r =>
      if hpos : position < r.sequence.length then
        if isCatalogCode newResidueCode then
          if newResidueCode = r.sequence.get ⟨position, hpos⟩ then
            (Except.error MutError.NoOpMutation, st)
          else
            (Except.ok (mutateOk st r position newResidueCode hpos).1,
             (mutateOk st r position newResidueCode hpos).2)
        else (Except.error MutError.InvalidResidue, st)
      else (Except.error MutError.InvalidPosition, st)

/-- Modelled from the spec: mutate(recordId, position, newResidueCode)
(spec section 4.5): look the record up in the Store and run the Mutation
Engine checks on the result. -/
def mutate (st : Store) (recordId position : Nat) (newResidueCode : Char) :
    Except MutError MutateResponse × Store :=
  mutateWith st (st.get recordId) position newResidueCode

/-- The empty store. -/
def st0 : Store := { nextId := 0, records := [] }

/-- A concrete record used by the witnesses: the result of inserting the
four-residue sequence MALW into the empty store. -/
def recW0 : ProteinRecord :=
  { id := 0, name := "Insulin", sequence := ['M', 'A', 'L', 'W'], length := 4,
    composition := [('M', 1), ('A', 1), ('L', 1), ('W', 1)], lineage := none }

/-- A concrete one-record store used by the witnesses. -/
def stW : Store := { nextId := 1, records := [recW0] }

/-- The record produced by mutating position 0 of recW0 to G. -/
def recW1 : ProteinRecord :=
  { id := 1, name := "Insulin (M1G)", sequence := ['G', 'A', 'L', 'W'],
    length := 4, composition := [('G', 1), ('A', 1), ('L', 1), ('W', 1)],
    lineage := some (0, "M1G") }

/-- The mutate success payload for that call. -/
def respW : MutateResponse := { mutation := "M1G", mutated_protein := recW1 }

/-- The store after that mutate call. -/
def stW2 : Store := { nextId := 2, records := [recW0, recW1] }

/-- Concrete raw input MALW. -/
def exPlain : List Char := ['M', 'A', 'L', 'W']

/-- Concrete raw input consisting of MALW in lowercase, interleaved with
spaces and followed by a newline. -/
def exSpaced : List Char :=
  [' ', ' ', 'm', ' ', 'a', ' ', 'l', ' ', 'w', ' ', '\n']

/-- A concrete FASTA header line (no newline inside). -/
def exHeader : List Char := ['>', 'H']

/-- A concrete raw input that itself begins with a FASTA header line. -/
def exNested : List Char := ['>', 'A', '\n', 'M']

/-- Concrete raw input MALWX. -/
def exMALWX : List Char := ['M', 'A', 'L', 'W', 'X']

/-- The color of alanine in AA_COLORS. -/
def colA : String := "#2ECC71"

/-!  Helper lemmas. -/

/-- A successful find? on a list stays successful on any extension to the
right. -/
theorem find?_append_of_some {α : Type} (q : α → Bool) {l l2 : List α}
    {a : α} (h : l.find? q = some a) : (l ++ l2).find? q = some a := by
  induction l with
  | nil => simp [List.find?] at h
  | cons x xs ih =>
      by_cases hx : q x
      · rw [List.find?_cons_of_pos _ hx] at h
        rw [List.cons_append, List.find?_cons_of_pos _ hx]
        exact h
      · rw [List.find?_cons_of_neg _ hx] at h
        rw [List.cons_append, List.find?_cons_of_neg _ hx]
        exact ih h

/-- dropWhile over a newline-free block stops exactly at the appended
newline. -/
theorem dropWhile_append_newline (s : List Char) :
    ∀ t : List Char, (∀ c ∈ t, c ≠ '\n') →
      List.dropWhile (fun x => x != '\n') (t ++ '\n' :: s) = '\n' :: s := by
  intro t
  induction t with
  | nil => intro _; simp [List.dropWhile_cons]
  | cons c rest ih =>
      intro h
      have hc : c ≠ '\n' := h c (List.mem_cons_self c rest)
      have hb : (c != '\n') = true := by simp [hc]
      rw [List.cons_append, List.dropWhile_cons, hb]
      exact ih (fun x hx => h x (List.mem_cons_of_mem c hx))

/-- A value returned by assocLookup belongs to the values of the list. -/
theorem assocLookup_mem_values {α β : Type} [DecidableEq α]
    (l : List (α × β)) (a : α) (b : β) (h : assocLookup l a = some b) :
    b ∈ l.map Prod.snd := by
  induction l with
  | nil => simp [assocLookup] at h
  | cons p rest ih =>
      obtain ⟨k, v⟩ := p
      by_cases hk : k = a
      · simp [assocLookup, hk] at h
        simp [h]
      · simp only [assocLookup, if_neg hk] at h
        simp [ih h]

/-- Every color value in the AA_COLORS table is a nonempty string. -/
theorem AA_COLORS_values_ne_empty : ∀ b ∈ AA_COLORS.map Prod.snd, b ≠ "" := by
  decide

/-- Every catalog code is an uppercase letter. -/
theorem upper_of_catalog : ∀ c ∈ catalogCodes, c.isUpper = true := by decide

/-- What a successful findInvalid reports: the returned character is at the
returned 0-based position and is not a catalog code. -/
theorem findInvalid_spec (s : List Char) :
    ∀ c p, findInvalid s = some (c, p) →
      s.get? p = some c ∧ isCatalogCode c = false := by
  induction s with
  | nil => intro c p h; simp [findInvalid] at h
  | cons x rest ih =>
      intro c p h
      simp only [findInvalid] at h
      by_cases hx : isCatalogCode x
      · rw [if_pos hx] at h
        rcases Option.map_eq_some'.mp h with ⟨⟨c0, p0⟩, h1, h2⟩
        simp only [Prod.mk.injEq] at h2
        obtain ⟨rfl, rfl⟩ := h2
        have := ih c0 p0 h1
        simpa [List.get?] using this
      · rw [if_neg hx] at h
        simp only [Option.some.injEq, Prod.mk.injEq] at h
        obtain ⟨rfl, rfl⟩ := h
        exact ⟨rfl, by simpa using hx⟩

/-- If findInvalid reports nothing, every character is a catalog code. -/
theorem findInvalid_none (s : List Char) :
    findInvalid s = none → ∀ c ∈ s, isCatalogCode c = true := by
  induction s with
  | nil => intro _ c hc; simp at hc
  | cons x rest ih =>
      intro h c hc
      simp only [findInvalid] at h
      by_cases hx : isCatalogCode x
      · rw [if_pos hx] at h
        have hr : findInvalid rest = none := by
          cases hfi : findInvalid rest with
          | none => rfl
          | some q => rw [hfi] at h; simp at h
        rcases List.mem_cons.mp hc with rfl | hc
        · exact hx
        · exact ih hr c hc
      · rw [if_neg hx] at h
        simp at h

/-- Incrementing one residue adds exactly one to the total count. -/
theorem insertCount_sum (m : List (Char × Nat)) (c : Char) :
    ((insertCount m c).map Prod.snd).sum = (m.map Prod.snd).sum + 1 := by
  induction m with
  | nil => simp [insertCount]
  | cons q rest ih =>
      obtain ⟨k, n⟩ := q
      by_cases hk : k = c
      · simp [insertCount, hk]
        omega
      · simp [insertCount, hk, ih]
        omega

/-- Incrementing a residue sets its looked-up count to one more than
before. -/
theorem insertCount_lookup_self (m : List (Char × Nat)) (c : Char) :
    assocLookup (insertCount m c) c = some ((assocLookup m c).getD 0 + 1) := by
  induction m with
  | nil => simp [insertCount, assocLookup]
  | cons q rest ih =>
      obtain ⟨k, n⟩ := q
      by_cases hk : k = c
      · simp [insertCount, hk, assocLookup]
      · simp [insertCount, hk, assocLookup, ih]

/-- Incrementing a residue leaves every other looked-up count unchanged. -/
theorem insertCount_lookup_ne (m : List (Char × Nat)) (c d : Char)
    (h : d ≠ c) : assocLookup (insertCount m c) d = assocLookup m d := by
  induction m with
  | nil => simp [insertCount, assocLookup, Ne.symm h]
  | cons q rest ih =>
      obtain ⟨k, n⟩ := q
      by_cases hk : k = c
      · subst hk
        simp [insertCount, assocLookup, Ne.symm h]
      · simp [insertCount, hk, assocLookup, ih]

/-- After incrementing a residue, its key is present. -/
theorem insertCount_lookup_some (m : List (Char × Nat)) (c : Char) :
    assocLookup (insertCount m c) c ≠ none := by
  rw [insertCount_lookup_self]
  simp

/-- Analyzer iteration adds the length of the remaining residues to the
total of the accumulated counts. -/
theorem analyzeFrom_sum (s : List Char) :
    ∀ m, ((analyzeFrom m s).map Prod.snd).sum =
      (m.map Prod.snd).sum + s.length := by
  induction s with
  | nil => intro m; simp [analyzeFrom]
  | cons c rest ih =>
      intro m
      simp only [analyzeFrom]
      rw [ih (insertCount m c), insertCount_sum]
      simp
      omega

/-- Analyzer iteration adds each residue's occurrence count to its
accumulated count. -/
theorem analyzeFrom_lookup_getD (s : List Char) :
    ∀ m c, (assocLookup (analyzeFrom m s) c).getD 0 =
      (assocLookup m c).getD 0 + s.count c := by
  induction s with
  | nil => intro m c; simp [analyzeFrom]
  | cons x rest ih =>
      intro m c
      simp only [analyzeFrom]
      rw [ih (insertCount m x) c]
      by_cases hc : c = x
      · subst hc
        rw [insertCount_lookup_self]
        simp [List.count_cons]
        omega
      · rw [insertCount_lookup_ne m x c hc]
        have hb : (x == c) = false := by simp [Ne.symm hc]
        simp [List.count_cons, hb]

/-- A key is absent from the analyzer result exactly when it was absent
from the accumulator and does not occur among the residues. -/
theorem analyzeFrom_lookup_none (s : List Char) :
    ∀ m c, assocLookup (analyzeFrom m s) c = none ↔
      (assocLookup m c = none ∧ c ∉ s) := by
  induction s with
  | nil => intro m c; simp [analyzeFrom]
  | cons x rest ih =>
      intro m c
      simp only [analyzeFrom]
      rw [ih (insertCount m x) c]
      by_cases hc : c = x
      · subst hc
        constructor
        · rintro ⟨h1, _⟩
          exact absurd h1 (insertCount_lookup_some m c)
        · rintro ⟨_, h2⟩
          exact absurd (List.mem_cons_self c rest) h2
      · rw [insertCount_lookup_ne m x c hc]
        simp [List.mem_cons, hc]

/-- The store returned by the mutate success path is the source store with
the derived record appended and the counter advanced. -/
theorem mutateOk_snd (st : Store) (r : ProteinRecord) (p : Nat) (c : Char)
    (hpos : p < r.sequence.length) :
    (mutateOk st r p c hpos).2 =
      { nextId := st.nextId + 1,
        records := st.records ++ [(mutateOk st r p c hpos).1.mutated_protein] } :=
  rfl

/-- The derived record carries the source store's fresh id. -/
theorem mutateOk_id (st : Store) (r : ProteinRecord) (p : Nat) (c : Char)
    (hpos : p < r.sequence.length) :
    (mutateOk st r p c hpos).1.mutated_protein.id = st.nextId :=
  rfl

/-- The mutate success payload carries the derived nomenclature. -/
theorem mutateOk_mutation (st : Store) (r : ProteinRecord) (p : Nat)
    (c : Char) (hpos : p < r.sequence.length) :
    (mutateOk st r p c hpos).1.mutation =
      nomenclature (r.sequence.get ⟨p, hpos⟩) p c :=
  rfl

/-!  Claim theorems. -/

/-- C9: the amino-acid catalog is a fixed constant with exactly 20
entries, one per standard single-letter residue code, all codes unique,
its codes coincide with the keys of the frontend AA_COLORS table, and
glycine is classed as special/neutral. -/
theorem catalog_invariants :
    catalog.length = 20 ∧
    catalogCodes.Nodup ∧
    (∀ c ∈ catalogCodes, c ∈ standardCodes) ∧
    (∀ c ∈ standardCodes, c ∈ catalogCodes) ∧
    catalogCodes = AA_COLORS.map Prod.fst ∧
    (∀ a ∈ catalog, a.code = 'G' → a.cls = AAClass.special) :=
  ⟨by decide, by decide, by decide, by decide, by decide, by decide⟩

/-- Witness for C9 at concrete entries: the glycine entry of the catalog
is classed special, and the code M is in both code lists. -/
theorem catalog_invariants_witness :
    AminoAcid.mk 'G' (String.mk ['G', 'l', 'y', 'c', 'i', 'n', 'e'])
      AAClass.special ∈ catalog →
    ((AminoAcid.mk 'G' (String.mk ['G', 'l', 'y', 'c', 'i', 'n', 'e'])
        AAClass.special).cls = AAClass.special ∧ 'M' ∈ standardCodes) :=
  fun hg =>
    ⟨catalog_invariants.2.2.2.2.2 _ hg rfl,
     catalog_invariants.2.2.1 'M' (by decide)⟩

/-- C10: the frontend color lookup is total: both the 2D residue grid and
the 3D helix model render the AA_COLORS entry for a mapped residue code
and the fallback color for any other character. -/
theorem color_lookup_total (aa : Char) :
    (∀ col, assocLookup AA_COLORS aa = some col →
      sequenceViewerColor aa = col ∧ proteinModelColor aa = col) ∧
    (assocLookup AA_COLORS aa = none →
      sequenceViewerColor aa = "#ccc" ∧ proteinModelColor aa = "#ccc") := by
  constructor
  · intro col h
    have hne : col ≠ "" :=
      AA_COLORS_values_ne_empty col (assocLookup_mem_values _ _ _ h)
    constructor
    · simp [sequenceViewerColor, h, hne]
    · simp [proteinModelColor, h, hne]
  · intro h
    constructor
    · simp [sequenceViewerColor, h]
    · simp [proteinModelColor, h]

/-- Witness for C10 at the mapped code A and the unmapped character X. -/
theorem color_lookup_total_witness :
    (sequenceViewerColor 'A' = colA ∧ proteinModelColor 'A' = colA) ∧
    (sequenceViewerColor 'X' = "#ccc" ∧ proteinModelColor 'X' = "#ccc") :=
  ⟨(color_lookup_total 'A').1 colA (by rfl), (color_lookup_total 'X').2 (by rfl)⟩

/-- C5 counterexample: prepending the FASTA header line exHeader to the
raw input exNested, which itself begins with a header line, does not yield
the same ProteinSequence as the headerless input: the headerless input
validates to the one-residue sequence M, while the header-prepended input
is rejected, because normalization strips only the one leading header
line. -/
theorem header_prepend_counterexample :
    exHeader.head? = some '>' ∧ '\n' ∉ exHeader ∧
    validate exNested = Except.ok (['M'] : List Char) ∧
    validate (exHeader ++ '\n' :: exNested) =
      Except.error (InvalidSequence.badChar '>' 0) :=
  ⟨rfl, by decide, rfl, rfl⟩

/-- C5 (amended): validation normalizes by stripping a leading FASTA
header line if present, removing all whitespace and uppercasing; the
inputs MALW and its lowercase whitespace-interleaved form normalize to the
same ProteinSequence, and prepending a FASTA header line to any input that
does not itself begin with a header line yields the same ProteinSequence
as the headerless input. -/
theorem validator_normalization (h s : List Char) (hh : h.head? = some '>')
    (hn : '\n' ∉ h) (hs : s.head? ≠ some '>') :
    normalize (h ++ '\n' :: s) = normalize s ∧
    validate (h ++ '\n' :: s) = validate s ∧
    normalize exPlain = normalize exSpaced ∧
    validate exPlain = validate exSpaced := by
  have hstrip : stripHeader (h ++ '\n' :: s) = s := by
    cases h with
    | nil => simp at hh
    | cons c t =>
        simp only [List.head?_cons, Option.some.injEq] at hh
        subst hh
        have ht : ∀ x ∈ t, x ≠ '\n' :=
          fun x hx hxe => hn (hxe ▸ List.mem_cons_of_mem _ hx)
        show stripHeader ('>' :: (t ++ '\n' :: s)) = s
        simp [stripHeader, dropWhile_append_newline s t ht]
  have hstrip2 : stripHeader s = s := by
    cases s with
    | nil => rfl
    | cons c t =>
        have hc : c ≠ '>' := fun hce => hs (by simp [hce])
        simp [stripHeader, hc]
  have hnorm : normalize (h ++ '\n' :: s) = normalize s := by
    rw [normalize, normalize, hstrip, hstrip2]
  refine ⟨hnorm, ?_, by decide, by rfl⟩
  rw [validate, validate, hnorm]

/-- Witness for C5 at the header exHeader and the headerless input
exPlain. -/
theorem validator_normalization_witness :
    normalize (exHeader ++ '\n' :: exPlain) = normalize exPlain ∧
    validate (exHeader ++ '\n' :: exPlain) = validate exPlain ∧
    normalize exPlain = normalize exSpaced ∧
    validate exPlain = validate exSpaced :=
  validator_normalization exHeader exPlain (by rfl) (by decide) (by decide)

/-- C6: for every raw input whose normalized form is empty the Validator
rejects with the empty-sequence error, for every raw input whose
normalized form contains a character outside the catalog it rejects
reporting an offending character and its 0-based position, and the input
MALWX is rejected reporting the character X at position 4. -/
theorem validator_rejects :
    (∀ raw, normalize raw = [] →
      validate raw = Except.error InvalidSequence.emptySeq) ∧
    (∀ raw c, c ∈ normalize raw → isCatalogCode c = false →
      ∃ c0 p, validate raw = Except.error (InvalidSequence.badChar c0 p) ∧
        (normalize raw).get? p = some c0 ∧ isCatalogCode c0 = false) ∧
    validate exMALWX = Except.error (InvalidSequence.badChar 'X' 4) := by
  refine ⟨?_, ?_, by rfl⟩
  · intro raw h
    rw [validate, h]
  · intro raw c hc hbad
    have hne : normalize raw ≠ [] := by
      intro h0
      rw [h0] at hc
      simp at hc
    cases hfi : findInvalid (normalize raw) with
    | none =>
        have := findInvalid_none _ hfi c hc
        rw [this] at hbad
        exact absurd hbad (by simp)
    | some cp =>
        obtain ⟨c0, p⟩ := cp
        obtain ⟨hget, hbad0⟩ := findInvalid_spec _ c0 p hfi
        refine ⟨c0, p, ?_, hget, hbad0⟩
        rw [validate]
        cases hnv : normalize raw with
        | nil => exact absurd hnv hne
        | cons a l =>
            rw [hnv] at hfi
            simp [hfi]

/-- Witness for C6 at a whitespace-only input and at the input MALWX. -/
theorem validator_rejects_witness :
    validate ([' '] : List Char) = Except.error InvalidSequence.emptySeq ∧
    (∃ c0 p, validate exMALWX = Except.error (InvalidSequence.badChar c0 p) ∧
      (normalize exMALWX).get? p = some c0 ∧ isCatalogCode c0 = false) :=
  ⟨validator_rejects.1 [' '] (by rfl),
   validator_rejects.2.1 exMALWX 'X' (by decide) (by rfl)⟩

/-- C4: for every valid sequence the derived composition has a key exactly
for each residue code occurring at least once, every looked-up count is
the occurrence count (hence at least one) with a catalog-code key, and the
counts sum exactly to the sequence length. -/
theorem composition_correct (s : List Char) (_hne : s ≠ [])
    (hval : ∀ c ∈ s, isCatalogCode c = true) :
    (∀ c, assocLookup (analyze s) c ≠ none ↔ c ∈ s) ∧
    (∀ c n, assocLookup (analyze s) c = some n →
      n = s.count c ∧ 1 ≤ n ∧ c ∈ catalogCodes) ∧
    ((analyze s).map Prod.snd).sum = s.length := by
  have hiff : ∀ c, assocLookup (analyze s) c = none ↔ c ∉ s := by
    intro c
    have h := analyzeFrom_lookup_none s [] c
    simpa [assocLookup, analyze] using h
  refine ⟨?_, ?_, ?_⟩
  · intro c
    constructor
    · intro hnn
      by_contra hmem
      exact hnn ((hiff c).mpr hmem)
    · intro hmem hnone
      exact ((hiff c).mp hnone) hmem
  · intro c n hsome
    have hmem : c ∈ s := by
      by_contra hmem
      rw [(hiff c).mpr hmem] at hsome
      exact Option.noConfusion hsome
    have hg := analyzeFrom_lookup_getD s [] c
    simp only [assocLookup, Option.getD_none, Nat.zero_add] at hg
    rw [show analyzeFrom [] s = analyze s from rfl, hsome] at hg
    simp only [Option.getD_some] at hg
    refine ⟨hg, ?_, of_decide_eq_true (hval c hmem)⟩
    rw [hg]
    have hcz : s.count c ≠ 0 := by
      intro h0
      exact absurd hmem (List.count_eq_zero.mp h0)
    omega
  · have h := analyzeFrom_sum s []
    simpa [analyze] using h

/-- Witness for C4 at the sequence MALW. -/
theorem composition_correct_witness :
    ((analyze exPlain).map Prod.snd).sum = exPlain.length ∧
    assocLookup (analyze exPlain) 'M' ≠ none :=
  ⟨(composition_correct exPlain (by decide) (by decide)).2.2,
   ((composition_correct exPlain (by decide) (by decide)).1 'M').mpr (by decide)⟩

/-- C7: on a well-formed store, insert assigns an id different from every
id of an earlier record, preserves well-formedness so the counter stays
fresh for all later inserts, leaves every earlier record stored unchanged,
and list returns all stored records in insertion order with the new record
appended last. -/
theorem store_insert_spec (st : Store) (hwf : Store.WF st) (nm : String)
    (seq : List Char) (lin : Option (Nat × String)) :
    (∀ r0 ∈ st.records, r0.id ≠ (st.insert nm seq lin).1.id) ∧
    Store.WF (st.insert nm seq lin).2 ∧
    (∀ r0 ∈ st.records, r0 ∈ (st.insert nm seq lin).2.records) ∧
    (st.insert nm seq lin).2.list = st.list ++ [(st.insert nm seq lin).1] := by
  refine ⟨?_, ?_, ?_, ?_⟩
  · intro r0 hr0
    have hlt := hwf r0 hr0
    simp only [Store.insert]
    omega
  · intro r0 hr0
    simp only [Store.insert, List.mem_append, List.mem_singleton] at hr0
    rcases hr0 with hr0 | rfl
    · have hlt := hwf r0 hr0
      simp only [Store.insert]
      omega
    · simp only [Store.insert]
      omega
  · intro r0 hr0
    simp only [Store.insert, List.mem_append]
    exact Or.inl hr0
  · simp [Store.insert, Store.list]

/-- Witness for C7: inserting the sequence MALW into the empty store. -/
theorem store_insert_spec_witness :
    (∀ r0 ∈ st0.records, r0.id ≠ (st0.insert recW0.name exPlain none).1.id) ∧
    Store.WF (st0.insert recW0.name exPlain none).2 ∧
    (∀ r0 ∈ st0.records, r0 ∈ (st0.insert recW0.name exPlain none).2.records) ∧
    (st0.insert recW0.name exPlain none).2.list =
      st0.list ++ [(st0.insert recW0.name exPlain none).1] :=
  store_insert_spec st0 (by intro r hr; simp [st0] at hr) recW0.name exPlain none

/-- C1: on a well-formed store, every successful mutate call returns a new
record whose id differs from every stored id, while the source record is
unchanged and still retrievable at its original id, the store afterwards
being exactly the old records followed by the new one. -/
theorem mutate_preserves_source (st : Store) (hwf : Store.WF st)
    (rid p : Nat) (c : Char) (resp : MutateResponse) (st2 : Store)
    (hok : mutate st rid p c = (Except.ok resp, st2)) :
    ∃ r, st.get rid = some r ∧ st2.get rid = some r ∧
      (∀ r0 ∈ st.records, r0.id ≠ resp.mutated_protein.id) ∧
      st2.records = st.records ++ [resp.mutated_protein] := by
  rw [mutate] at hok
  cases hget : st.get rid with
  | none =>
      rw [hget] at hok
      simp only [mutateWith] at hok
      injection hok with h1 _
      exact Except.noConfusion h1
  | some r =>
      rw [hget] at hok
      simp only [mutateWith] at hok
      by_cases hpos : p < r.sequence.length
      · rw [dif_pos hpos] at hok
        by_cases hcat : isCatalogCode c
        · rw [if_pos hcat] at hok
          by_cases heq : c = r.sequence.get ⟨p, hpos⟩
          · rw [if_pos heq] at hok
            injection hok with h1 _
            exact Except.noConfusion h1
          · rw [if_neg heq] at hok
            injection hok with h1 h2
            injection h1 with hresp
            refine ⟨r, rfl, ?_, ?_, ?_⟩
            · rw [← h2, mutateOk_snd]
              exact find?_append_of_some _ hget
            · intro r0 hr0
              rw [← hresp, mutateOk_id]
              exact Nat.ne_of_lt (hwf r0 hr0)
            · rw [← h2, mutateOk_snd, ← hresp]
        · rw [if_neg hcat] at hok
          injection hok with h1 _
          exact Except.noConfusion h1
      · rw [dif_neg hpos] at hok
        injection hok with h1 _
        exact Except.noConfusion h1

/-- Witness for C1: mutating position 0 of the stored MALW record to G. -/
theorem mutate_preserves_source_witness :
    ∃ r, stW.get 0 = some r ∧ stW2.get 0 = some r ∧
      (∀ r0 ∈ stW.records, r0.id ≠ respW.mutated_protein.id) ∧
      stW2.records = stW.records ++ [respW.mutated_protein] :=
  mutate_preserves_source stW
    (by intro r hr; simp [stW] at hr; subst hr; decide) 0 0 'G' respW stW2
    (by rfl)

/-- C2: mutating a stored, catalog-valid record at an in-range position to
the residue already present there fails with NoOpMutation and leaves the
store unchanged, creating no new record. -/
theorem mutate_noop (st : Store) (rid p : Nat) (r : ProteinRecord)
    (hget : st.get rid = some r)
    (hval : ∀ ch ∈ r.sequence, isCatalogCode ch = true)
    (hp : p < r.sequence.length) :
    mutate st rid p (r.sequence.get ⟨p, hp⟩) =
      (Except.error MutError.NoOpMutation, st) := by
  rw [mutate, hget]
  simp only [mutateWith]
  rw [dif_pos hp]
  have hcat : isCatalogCode (r.sequence.get ⟨p, hp⟩) = true :=
    hval _ (List.get_mem r.sequence p hp)
  rw [if_pos hcat]
  simp

/-- Witness for C2: mutating position 0 of the stored MALW record to its
current residue M. -/
theorem mutate_noop_witness :
    mutate stW 0 0 (recW0.sequence.get ⟨0, by decide⟩) =
      (Except.error MutError.NoOpMutation, stW) :=
  mutate_noop stW 0 0 recW0 (by rfl) (by decide) (by decide)

/-- C3: every successful mutate call returns the nomenclature string built
from the source residue at the 0-based position, the decimal rendering of
the 1-based position, and the target residue code, both residue codes
being uppercase. -/
theorem mutate_nomenclature (st : Store) (rid p : Nat) (c : Char)
    (r : ProteinRecord) (resp : MutateResponse) (st2 : Store)
    (hget : st.get rid = some r)
    (hval : ∀ ch ∈ r.sequence, isCatalogCode ch = true)
    (hok : mutate st rid p c = (Except.ok resp, st2)) :
    ∃ hp : p < r.sequence.length,
      resp.mutation =
        String.mk [r.sequence.get ⟨p, hp⟩] ++ Nat.repr (p + 1) ++
          String.mk [c] ∧
      (r.sequence.get ⟨p, hp⟩).isUpper = true ∧ c.isUpper = true := by
  rw [mutate, hget] at hok
  simp only [mutateWith] at hok
  by_cases hpos : p < r.sequence.length
  · rw [dif_pos hpos] at hok
    by_cases hcat : isCatalogCode c
    · rw [if_pos hcat] at hok
      by_cases heq : c = r.sequence.get ⟨p, hpos⟩
      · rw [if_pos heq] at hok
        injection hok with h1 _
        exact Except.noConfusion h1
      · rw [if_neg heq] at hok
        injection hok with h1 _
        injection h1 with hresp
        refine ⟨hpos, ?_, ?_, ?_⟩
        · rw [← hresp, mutateOk_mutation]
          rfl
        · exact upper_of_catalog _
            (of_decide_eq_true (hval _ (List.get_mem r.sequence p hpos)))
        · exact upper_of_catalog _ (of_decide_eq_true hcat)
    · rw [if_neg hcat] at hok
      injection hok with h1 _
      exact Except.noConfusion h1
  · rw [dif_neg hpos] at hok
    injection hok with h1 _
    exact Except.noConfusion h1

/-- Witness for C3: the M1G mutation of the stored MALW record. -/
theorem mutate_nomenclature_witness :
    ∃ hp : (0 : Nat) < recW0.sequence.length,
      respW.mutation =
        String.mk [recW0.sequence.get ⟨0, hp⟩] ++ Nat.repr (0 + 1) ++
          String.mk ['G'] ∧
      (recW0.sequence.get ⟨0, hp⟩).isUpper = true ∧ ('G').isUpper = true :=
  mutate_nomenclature stW 0 0 'G' recW0 respW stW2 (by rfl) (by decide)
    (by rfl)

/-- C8 counterexample: at a concrete successful mutate call the serialized
success payload has no fields named nomenclature or mutatedRecord; its
fields are named mutation and mutated_protein, as read by the frontend
consumer. -/
theorem mutate_field_names_counterexample :
    mutate stW 0 0 'G' = (Except.ok respW, stW2) ∧
    assocLookup (MutateResponse.fields respW) nomenclatureKey = none ∧
    assocLookup (MutateResponse.fields respW) mutatedRecordKey = none ∧
    assocLookup (MutateResponse.fields respW) mutationKey =
      some (FieldValue.str respW.mutation) :=
  ⟨rfl, rfl, rfl, rfl⟩

/-- C8 (amended): every call to the external Mutate interface on success
yields a payload exposing the nomenclature string under the name mutation
and the mutated record under the name mutated_protein, and on failure is
exactly one of NotFound, InvalidPosition, InvalidResidue or
NoOpMutation. -/
theorem mutate_interface_shape (st : Store) (rid p : Nat) (c : Char) :
    (∀ resp st2, mutate st rid p c = (Except.ok resp, st2) →
      (MutateResponse.fields resp).map Prod.fst =
        [mutationKey, mutatedProteinKey] ∧
      assocLookup (MutateResponse.fields resp) mutationKey =
        some (FieldValue.str resp.mutation) ∧
      assocLookup (MutateResponse.fields resp) mutatedProteinKey =
        some (FieldValue.record resp.mutated_protein)) ∧
    (∀ e st2, mutate st rid p c = (Except.error e, st2) →
      e = MutError.NotFound ∨ e = MutError.InvalidPosition ∨
      e = MutError.InvalidResidue ∨ e = MutError.NoOpMutation) := by
  constructor
  · intro resp st2 _
    exact ⟨rfl, rfl, rfl⟩
  · intro e st2 _
    cases e with
    | NotFound => exact Or.inl rfl
    | InvalidPosition => exact Or.inr (Or.inl rfl)
    | InvalidResidue => exact Or.inr (Or.inr (Or.inl rfl))
    | NoOpMutation => exact Or.inr (Or.inr (Or.inr rfl))

/-- Witness for C8 at a concrete successful call and a concrete failing
call. -/
theorem mutate_interface_shape_witness :
    ((MutateResponse.fields respW).map Prod.fst =
        [mutationKey, mutatedProteinKey] ∧
      assocLookup (MutateResponse.fields respW) mutationKey =
        some (FieldValue.str respW.mutation) ∧
      assocLookup (MutateResponse.fields respW) mutatedProteinKey =
        some (FieldValue.record respW.mutated_protein)) ∧
    (MutError.NoOpMutation = MutError.NotFound ∨
      MutError.NoOpMutation = MutError.InvalidPosition ∨
      MutError.NoOpMutation = MutError.InvalidResidue ∨
      MutError.NoOpMutation = MutError.NoOpMutation) :=
  ⟨(mutate_interface_shape stW 0 0 'G').1 respW stW2 (by rfl),
   (mutate_interface_shape stW 0 0 'M').2 MutError.NoOpMutation stW (by rfl)⟩

end ProteinLab
